import Mathlib

/-!
Verification of the npm security scanner's risk aggregation engine and
discovery/scan state tracker, as a shallow embedding of the TypeScript
sources (`src/reporting/issue-creator.ts`, `src/discovery/npm-changes.ts`).

JavaScript numbers are modelled as `ℚ` where fractional multipliers occur
(all summands in the risk score are multiples of 1/2, so IEEE doubles
compute them exactly at every realistic input size) and as `Nat` for feed
sequence numbers.  JavaScript strings are modelled as `String`, except in
the file-content / package-id parsing layer where they are modelled as
`List Char` to reason about splitting and trimming.
-/

/-! ## Risk scorer data model (`src/types.ts`) -/

/-- The four-valued severity / risk-level union `'CRITICAL'|'HIGH'|'MEDIUM'|'LOW'`. -/
inductive RiskLevel
  | CRITICAL
  | HIGH
  | MEDIUM
  | LOW
deriving DecidableEq

/-- The three-valued severity / confidence union `'HIGH'|'MEDIUM'|'LOW'`. -/
inductive IssueSeverity
  | HIGH
  | MEDIUM
  | LOW
deriving DecidableEq

structure VulnerabilityResult where
  severity : RiskLevel
  cve : Option String
  title : String
  description : String
  fixedVersion : Option String
  affectedPackage : String

structure CodeIssue where
  severity : IssueSeverity
  rule : String
  message : String
  file : String
  line : Option Nat
  pattern : Option String

/-- `SecretFinding`; the source field `match` is renamed `matchText`
(`match` is a Lean keyword). -/
structure SecretFinding where
  type : String
  file : String
  line : Option Nat
  matchText : String
  confidence : IssueSeverity

structure MetadataIssue where
  type : String
  severity : IssueSeverity
  message : String

structure RiskScore where
  overall : RiskLevel
  vulnerabilities : Nat
  codeIssues : Nat
  secrets : Nat
  metadataIssues : Nat
deriving DecidableEq

/-! ## RiskScorer (`src/reporting/issue-creator.ts`, class `RiskScorer`) -/

/-- JavaScript `s.includes(pat)`: substring containment. -/
def jsIncludes (s pat : String) : Bool :=
  s.toList.tails.any (fun t => pat.toList.isPrefixOf t)

def highRiskPatterns : List String :=
  ["eval-usage", "child-process", "install-scripts", "crypto-mining"]

def mediumRiskPatterns : List String :=
  ["network-request", "fs-operations", "obfuscation"]

/-- `RiskScorer.getIssueMultiplier`. -/
def getIssueMultiplier (rule : String) : ℚ :=
  if highRiskPatterns.any (fun pattern => jsIncludes rule pattern) then 2
  else if mediumRiskPatterns.any (fun pattern => jsIncludes rule pattern) then 3 / 2
  else 1

def criticalSecrets : List String :=
  ["AWS Access Key", "Private Key", "NPM Token", "GitHub Token"]

def highRiskSecrets : List String :=
  ["Google API Key", "Slack Token", "Discord Bot Token", "Stripe Secret Key"]

/-- `RiskScorer.getSecretMultiplier` (`Array.includes` is exact membership). -/
def getSecretMultiplier (secretType : String) : ℚ :=
  if criticalSecrets.contains secretType then 5 / 2
  else if highRiskSecrets.contains secretType then 2
  else 1

/-- `RiskScorer.scoreVulnerabilities` (`reduce` over the list, starting at 0). -/
def scoreVulnerabilities (vulnerabilities : List VulnerabilityResult) : ℚ :=
  vulnerabilities.foldl
    (fun score vuln =>
      match vuln.severity with
      | .CRITICAL => score + 40
      | .HIGH => score + 20
      | .MEDIUM => score + 8
      | .LOW => score + 2) 0

/-- `RiskScorer.scoreCodeIssues`. -/
def scoreCodeIssues (codeIssues : List CodeIssue) : ℚ :=
  codeIssues.foldl
    (fun score issue =>
      let baseScore : ℚ :=
        match issue.severity with
        | .HIGH => 15
        | .MEDIUM => 5
        | .LOW => 1
      let multiplier := getIssueMultiplier issue.rule
      score + baseScore * multiplier) 0

/-- `RiskScorer.scoreSecrets`. -/
def scoreSecrets (secrets : List SecretFinding) : ℚ :=
  secrets.foldl
    (fun score secret =>
      let baseScore : ℚ :=
        match secret.confidence with
        | .HIGH => 25
        | .MEDIUM => 10
        | .LOW => 3
      let multiplier := getSecretMultiplier secret.type
      score + baseScore * multiplier) 0

/-- `RiskScorer.scoreMetadataIssues`. -/
def scoreMetadataIssues (metadataIssues : List MetadataIssue) : ℚ :=
  metadataIssues.foldl
    (fun score issue =>
      match issue.severity with
      | .HIGH => score + 10
      | .MEDIUM => score + 5
      | .LOW => score + 1) 0

/-- `RiskScorer.scoreToRiskLevel`. -/
def scoreToRiskLevel (score : ℚ) : RiskLevel :=
  if score ≥ 80 then .CRITICAL
  else if score ≥ 40 then .HIGH
  else if score ≥ 15 then .MEDIUM
  else .LOW

/-- The local accumulator `score` of `RiskScorer.calculateRiskScore`
(the four category contributions added up). -/
def riskScoreTotal (vulnerabilities : List VulnerabilityResult) (codeIssues : List CodeIssue)
    (secrets : List SecretFinding) (metadataIssues : List MetadataIssue) : ℚ :=
  scoreVulnerabilities vulnerabilities + scoreCodeIssues codeIssues +
    scoreSecrets secrets + scoreMetadataIssues metadataIssues

/-- `RiskScorer.calculateRiskScore`. -/
def calculateRiskScore (vulnerabilities : List VulnerabilityResult) (codeIssues : List CodeIssue)
    (secrets : List SecretFinding) (metadataIssues : List MetadataIssue) : RiskScore :=
  { overall := scoreToRiskLevel (riskScoreTotal vulnerabilities codeIssues secrets metadataIssues)
    vulnerabilities := vulnerabilities.length
    codeIssues := codeIssues.length
    secrets := secrets.length
    metadataIssues := metadataIssues.length }

/-- `RiskScorer.shouldCreateIssue`. -/
def shouldCreateIssue (riskScore : RiskScore) : Bool :=
  decide (riskScore.overall = RiskLevel.CRITICAL) ||
    decide (riskScore.overall = RiskLevel.HIGH) ||
    (decide (riskScore.overall = RiskLevel.MEDIUM) &&
      (decide (0 < riskScore.vulnerabilities) || decide (0 < riskScore.secrets)))

/-! Per-item point functions as the specification words them, used to state
the scoring claims against the fold-based source functions. -/

def claimVulnPoints (v : VulnerabilityResult) : ℚ :=
  match v.severity with
  | .CRITICAL => 40
  | .HIGH => 20
  | .MEDIUM => 8
  | .LOW => 2

def claimCodeIssuePoints (i : CodeIssue) : ℚ :=
  (match i.severity with
   | .HIGH => 15
   | .MEDIUM => 5
   | .LOW => 1) * getIssueMultiplier i.rule

def claimSecretPoints (s : SecretFinding) : ℚ :=
  (match s.confidence with
   | .HIGH => 25
   | .MEDIUM => 10
   | .LOW => 3) * getSecretMultiplier s.type

def claimMetadataPoints (m : MetadataIssue) : ℚ :=
  match m.severity with
  | .HIGH => 10
  | .MEDIUM => 5
  | .LOW => 1

/-- The total score as the specification describes it: a per-item sum over the
four collections. -/
def claimTotal (vulnerabilities : List VulnerabilityResult) (codeIssues : List CodeIssue)
    (secrets : List SecretFinding) (metadataIssues : List MetadataIssue) : ℚ :=
  (vulnerabilities.map claimVulnPoints).sum + (codeIssues.map claimCodeIssuePoints).sum +
    (secrets.map claimSecretPoints).sum + (metadataIssues.map claimMetadataPoints).sum

/-- Numeric rank of a risk level, `LOW < MEDIUM < HIGH < CRITICAL`. -/
def riskLevelOrd : RiskLevel → Nat
  | .LOW => 0
  | .MEDIUM => 1
  | .HIGH => 2
  | .CRITICAL => 3

/-! ## Risk scorer lemmas -/

theorem foldl_add_comm_q {α : Type} (f : α → ℚ) :
    ∀ (l : List α) (init : ℚ), l.foldl (fun s x => s + f x) init = init + (l.map f).sum := by
  intro l
  induction l with
  | nil => intro init; simp
  | cons a t ih =>
    intro init
    simp only [List.foldl_cons, List.map_cons, List.sum_cons, ih]
    ring

theorem scoreVulnerabilities_eq (l : List VulnerabilityResult) :
    scoreVulnerabilities l = (l.map claimVulnPoints).sum := by
  have h : scoreVulnerabilities l = l.foldl (fun s x => s + claimVulnPoints x) 0 := by
    unfold scoreVulnerabilities
    congr 1
    all_goals funext s v
    all_goals cases hv : v.severity <;> simp [claimVulnPoints, hv]
  rw [h, foldl_add_comm_q]
  all_goals rw [zero_add]

theorem scoreCodeIssues_eq (l : List CodeIssue) :
    scoreCodeIssues l = (l.map claimCodeIssuePoints).sum := by
  have h : scoreCodeIssues l = l.foldl (fun s x => s + claimCodeIssuePoints x) 0 := by
    unfold scoreCodeIssues
    congr 1
  rw [h, foldl_add_comm_q]
  all_goals rw [zero_add]

theorem scoreSecrets_eq (l : List SecretFinding) :
    scoreSecrets l = (l.map claimSecretPoints).sum := by
  have h : scoreSecrets l = l.foldl (fun s x => s + claimSecretPoints x) 0 := by
    unfold scoreSecrets
    congr 1
  rw [h, foldl_add_comm_q]
  all_goals rw [zero_add]

theorem scoreMetadataIssues_eq (l : List MetadataIssue) :
    scoreMetadataIssues l = (l.map claimMetadataPoints).sum := by
  have h : scoreMetadataIssues l = l.foldl (fun s x => s + claimMetadataPoints x) 0 := by
    unfold scoreMetadataIssues
    congr 1
    all_goals funext s i
    all_goals cases hv : i.severity <;> simp [claimMetadataPoints, hv]
  rw [h, foldl_add_comm_q]
  all_goals rw [zero_add]

theorem riskScoreTotal_eq_claimTotal (v : List VulnerabilityResult) (c : List CodeIssue)
    (s : List SecretFinding) (m : List MetadataIssue) :
    riskScoreTotal v c s m = claimTotal v c s m := by
  unfold riskScoreTotal claimTotal
  rw [scoreVulnerabilities_eq, scoreCodeIssues_eq, scoreSecrets_eq, scoreMetadataIssues_eq]

theorem scoreToRiskLevel_critical_iff (q : ℚ) : scoreToRiskLevel q = .CRITICAL ↔ 80 ≤ q := by
  unfold scoreToRiskLevel
  split_ifs with h1 h2 h3 <;> simp <;> linarith

theorem scoreToRiskLevel_high_iff (q : ℚ) :
    scoreToRiskLevel q = .HIGH ↔ 40 ≤ q ∧ q < 80 := by
  unfold scoreToRiskLevel
  split_ifs with h1 h2 h3
  · simp only [reduceCtorEq, false_iff, not_and, not_lt]
    intro h
    linarith
  · simp only [true_iff]
    exact ⟨by linarith, by linarith⟩
  · simp only [reduceCtorEq, false_iff, not_and, not_lt]
    intro h
    linarith
  · simp only [reduceCtorEq, false_iff, not_and, not_lt]
    intro h
    linarith

theorem scoreToRiskLevel_medium_iff (q : ℚ) :
    scoreToRiskLevel q = .MEDIUM ↔ 15 ≤ q ∧ q < 40 := by
  unfold scoreToRiskLevel
  split_ifs with h1 h2 h3
  · simp only [reduceCtorEq, false_iff, not_and, not_lt]
    intro h
    linarith
  · simp only [reduceCtorEq, false_iff, not_and, not_lt]
    intro h
    linarith
  · simp only [true_iff]
    exact ⟨by linarith, by linarith⟩
  · simp only [reduceCtorEq, false_iff, not_and, not_lt]
    intro h
    linarith

theorem scoreToRiskLevel_low_iff (q : ℚ) : scoreToRiskLevel q = .LOW ↔ q < 15 := by
  unfold scoreToRiskLevel
  split_ifs with h1 h2 h3 <;> simp <;> linarith

theorem scoreToRiskLevel_mono {a b : ℚ} (h : a ≤ b) :
    riskLevelOrd (scoreToRiskLevel a) ≤ riskLevelOrd (scoreToRiskLevel b) := by
  unfold scoreToRiskLevel
  split_ifs <;> simp [riskLevelOrd] <;> linarith

/-- C1: for every four input collections, `calculateRiskScore`'s total score equals
the per-item weighted sum described by the spec (vulnerabilities 40/20/8/2,
code issues 15/5/1 times the rule multiplier, secrets 25/10/3 times the
secret-type multiplier, metadata 10/5/1), the overall level is CRITICAL iff
the total is ≥ 80, else HIGH iff ≥ 40, else MEDIUM iff ≥ 15, else LOW, and
the returned counts are the lengths of the four inputs. -/
theorem C1_calculateRiskScore_formula (v : List VulnerabilityResult) (c : List CodeIssue)
    (s : List SecretFinding) (m : List MetadataIssue) :
    riskScoreTotal v c s m = claimTotal v c s m ∧
    (calculateRiskScore v c s m).overall = scoreToRiskLevel (claimTotal v c s m) ∧
    ((calculateRiskScore v c s m).overall = .CRITICAL ↔ 80 ≤ claimTotal v c s m) ∧
    ((calculateRiskScore v c s m).overall = .HIGH ↔
      40 ≤ claimTotal v c s m ∧ claimTotal v c s m < 80) ∧
    ((calculateRiskScore v c s m).overall = .MEDIUM ↔
      15 ≤ claimTotal v c s m ∧ claimTotal v c s m < 40) ∧
    ((calculateRiskScore v c s m).overall = .LOW ↔ claimTotal v c s m < 15) ∧
    (calculateRiskScore v c s m).vulnerabilities = v.length ∧
    (calculateRiskScore v c s m).codeIssues = c.length ∧
    (calculateRiskScore v c s m).secrets = s.length ∧
    (calculateRiskScore v c s m).metadataIssues = m.length := by
  have ht := riskScoreTotal_eq_claimTotal v c s m
  have hov : (calculateRiskScore v c s m).overall = scoreToRiskLevel (claimTotal v c s m) := by
    simp [calculateRiskScore, ht]
  refine ⟨ht, hov, ?_, ?_, ?_, ?_, rfl, rfl, rfl, rfl⟩
  · rw [hov]; exact scoreToRiskLevel_critical_iff _
  · rw [hov]; exact scoreToRiskLevel_high_iff _
  · rw [hov]; exact scoreToRiskLevel_medium_iff _
  · rw [hov]; exact scoreToRiskLevel_low_iff _

/-- C2: `shouldCreateIssue` holds iff the overall level is CRITICAL or HIGH, or
MEDIUM with a positive vulnerability or secret count; on LOW it is false. -/
theorem C2_shouldCreateIssue_iff (r : RiskScore) :
    (shouldCreateIssue r = true ↔
      (r.overall = .CRITICAL ∨ r.overall = .HIGH ∨
        (r.overall = .MEDIUM ∧ (0 < r.vulnerabilities ∨ 0 < r.secrets)))) ∧
    (r.overall = .LOW → shouldCreateIssue r = false) := by
  obtain ⟨ov, nv, nc, ns, nm⟩ := r
  cases ov <;> simp [shouldCreateIssue]

/-- Witness for C2 at a concrete MEDIUM score with one secret. -/
theorem C2_shouldCreateIssue_iff_witness :
    shouldCreateIssue ⟨.MEDIUM, 0, 0, 1, 0⟩ = true :=
  (C2_shouldCreateIssue_iff ⟨.MEDIUM, 0, 0, 1, 0⟩).1.mpr
    (Or.inr (Or.inr ⟨rfl, Or.inr (by decide)⟩))

/-- C8: adding one CRITICAL vulnerability never decreases the overall risk
level (levels ordered LOW < MEDIUM < HIGH < CRITICAL). -/
theorem C8_critical_vuln_monotone (v : VulnerabilityResult) (vs : List VulnerabilityResult)
    (c : List CodeIssue) (s : List SecretFinding) (m : List MetadataIssue)
    (h : v.severity = .CRITICAL) :
    riskLevelOrd (calculateRiskScore vs c s m).overall ≤
      riskLevelOrd (calculateRiskScore (v :: vs) c s m).overall := by
  have hstep : riskScoreTotal (v :: vs) c s m = riskScoreTotal vs c s m + 40 := by
    rw [riskScoreTotal_eq_claimTotal, riskScoreTotal_eq_claimTotal]
    unfold claimTotal
    simp [claimVulnPoints, h]
    ring
  simp only [calculateRiskScore]
  rw [hstep]
  exact scoreToRiskLevel_mono (by linarith)

/-- Witness for C8: one CRITICAL vulnerability added to the empty finding set. -/
theorem C8_critical_vuln_monotone_witness :
    riskLevelOrd (calculateRiskScore [] [] [] []).overall ≤
      riskLevelOrd
        (calculateRiskScore [⟨.CRITICAL, none, "t", "d", none, "p"⟩] [] [] []).overall :=
  C8_critical_vuln_monotone ⟨.CRITICAL, none, "t", "d", none, "p"⟩ [] [] [] [] rfl

/-- The C9 scenario's code issue: one MEDIUM issue for rule `eval-usage`. -/
def c9Issue : CodeIssue :=
  { severity := .MEDIUM, rule := "eval-usage", message := "", file := "", line := none,
    pattern := none }

/-- The C9 scenario's secret: one HIGH-confidence "AWS Access Key" finding. -/
def c9Secret : SecretFinding :=
  { type := "AWS Access Key", file := "", line := none, matchText := "", confidence := .HIGH }

/-- C9: one MEDIUM `eval-usage` code issue plus one HIGH "AWS Access Key"
secret yields a total of 72.5 points, level HIGH, and a reported issue. -/
theorem C9_concrete_scenario :
    riskScoreTotal [] [c9Issue] [c9Secret] [] = 145 / 2 ∧
    (calculateRiskScore [] [c9Issue] [c9Secret] []).overall = .HIGH ∧
    shouldCreateIssue (calculateRiskScore [] [c9Issue] [c9Secret] []) = true := by
  have hpat : (highRiskPatterns.any (fun pattern => jsIncludes "eval-usage" pattern)) = true := by
    decide
  have hm : getIssueMultiplier "eval-usage" = 2 := by
    simp [getIssueMultiplier, hpat]
  have hc : "AWS Access Key" ∈ criticalSecrets := by decide
  have hs : getSecretMultiplier "AWS Access Key" = 5 / 2 := by
    simp [getSecretMultiplier, hc]
  have htot : riskScoreTotal [] [c9Issue] [c9Secret] [] = 145 / 2 := by
    simp only [riskScoreTotal, scoreVulnerabilities, scoreCodeIssues, scoreSecrets,
      scoreMetadataIssues, List.foldl_cons, List.foldl_nil, c9Issue, c9Secret, hm, hs]
    norm_num
  have hov : (calculateRiskScore [] [c9Issue] [c9Secret] []).overall = RiskLevel.HIGH := by
    have h1 : (calculateRiskScore [] [c9Issue] [c9Secret] []).overall =
        scoreToRiskLevel (145 / 2) := by
      simp [calculateRiskScore, htot]
    rw [h1, scoreToRiskLevel_high_iff]
    norm_num
  refine ⟨htot, hov, ?_⟩
  simp [shouldCreateIssue, hov]

/-! ## Character-level string utilities (JavaScript string primitives)

Package-id parsing and state-file contents are modelled over `List Char`. -/

/-- JavaScript `s.split(sep)` for a one-character separator: `"".split` is
`[""]`, and a leading/trailing separator yields an empty group. -/
def jsSplit (sep : Char) : List Char → List (List Char)
  | [] => [[]]
  | a :: as =>
    if a = sep then [] :: jsSplit sep as
    else
      match jsSplit sep as with
      | [] => [[a]]
      | g :: gs => (a :: g) :: gs

/-- JavaScript `s.lastIndexOf(c)`; `none` models the sentinel -1. -/
def lastIndexOf (sep : Char) : List Char → Option Nat
  | [] => none
  | a :: as =>
    match lastIndexOf sep as with
    | some i => some (i + 1)
    | none => if a = sep then some 0 else none

theorem jsSplit_of_not_mem {sep : Char} : ∀ {l : List Char}, sep ∉ l → jsSplit sep l = [l] := by
  intro l
  induction l with
  | nil => intro _; rfl
  | cons a as ih =>
    intro h
    have ha : ¬a = sep := fun hc => h (hc ▸ List.mem_cons_self a as)
    have has : sep ∉ as := fun hc => h (List.mem_cons_of_mem a hc)
    simp only [jsSplit, if_neg ha, ih has]

theorem jsSplit_cons_sep {sep : Char} (l : List Char) :
    jsSplit sep (sep :: l) = [] :: jsSplit sep l := by
  simp [jsSplit]

theorem jsSplit_append {sep : Char} :
    ∀ {xs : List Char} (ys : List Char), sep ∉ xs →
      jsSplit sep (xs ++ sep :: ys) = xs :: jsSplit sep ys := by
  intro xs
  induction xs with
  | nil => intro ys _; simpa using jsSplit_cons_sep ys
  | cons a as ih =>
    intro ys h
    have ha : ¬a = sep := fun hc => h (hc ▸ List.mem_cons_self a as)
    have has : sep ∉ as := fun hc => h (List.mem_cons_of_mem a hc)
    simp only [List.cons_append, jsSplit, if_neg ha, List.append_eq, ih ys has]

theorem lastIndexOf_of_not_mem {sep : Char} :
    ∀ {l : List Char}, sep ∉ l → lastIndexOf sep l = none := by
  intro l
  induction l with
  | nil => intro _; rfl
  | cons a as ih =>
    intro h
    have ha : ¬a = sep := fun hc => h (hc ▸ List.mem_cons_self a as)
    have has : sep ∉ as := fun hc => h (List.mem_cons_of_mem a hc)
    simp only [lastIndexOf, ih has, if_neg ha]

theorem lastIndexOf_append {sep : Char} :
    ∀ {xs : List Char} (ys : List Char), sep ∉ ys →
      lastIndexOf sep (xs ++ sep :: ys) = some xs.length := by
  intro xs
  induction xs with
  | nil =>
    intro ys h
    simp [lastIndexOf, lastIndexOf_of_not_mem h]
  | cons a as ih =>
    intro ys h
    simp only [List.cons_append, lastIndexOf, List.append_eq, ih ys h, List.length_cons]

/-! ## `NpmChangesFeed.parsePackageId` (`src/discovery/npm-changes.ts`) -/

/-- `NpmChangesFeed.parsePackageId`, over the id string's characters.
`packageId.startsWith('@')` is `head? = some '@'`; the `(null, null)`
fall-through return is the `(none, none)` branches. -/
def parsePackageId (packageId : List Char) : Option (List Char) × Option (List Char) :=
  if packageId.head? = some '@' then
    let parts := jsSplit '@' packageId
    if 3 ≤ parts.length then
      (some ('@' :: parts.getD 1 []), some (parts.getD 2 []))
    else if parts.length = 2 then
      (some ('@' :: parts.getD 1 []), none)
    else
      (none, none)
  else
    match lastIndexOf '@' packageId with
    | some lastAtIndex =>
      if 0 < lastAtIndex then
        (some (packageId.take lastAtIndex), some (packageId.drop (lastAtIndex + 1)))
      else
        (none, none)
    | none => (some packageId, none)

/-- The canonical serialization `name + "@" + version` built by
`getLatestChanges` / `markPackagesScanned`. -/
def formatPackageId (name version : List Char) : List Char :=
  name ++ '@' :: version

/-- C6 (amended): the round-trip `parsePackageId (name ++ "@" ++ version) =
(name, version)` holds whenever the version contains no `@` and the name is
either scoped (`@` followed by an `@`-free remainder) or non-scoped
(nonempty, not starting with `@`); for scoped names the separator taken is
the second `@`, not the last one. -/
theorem C6_parsePackageId_roundtrip (name version : List Char)
    (hv : '@' ∉ version)
    (hn : (∃ n1, name = '@' :: n1 ∧ '@' ∉ n1) ∨ (name ≠ [] ∧ name.head? ≠ some '@')) :
    parsePackageId (formatPackageId name version) = (some name, some version) := by
  rcases hn with ⟨n1, rfl, hn1⟩ | ⟨hne, hh⟩
  · have hshape : formatPackageId ('@' :: n1) version = '@' :: (n1 ++ '@' :: version) := rfl
    have hsplit : jsSplit '@' ('@' :: (n1 ++ '@' :: version)) = [[], n1, version] := by
      rw [jsSplit_cons_sep, jsSplit_append version hn1, jsSplit_of_not_mem hv]
    rw [hshape]
    unfold parsePackageId
    rw [if_pos (show (('@' :: (n1 ++ '@' :: version)).head? = some '@') from rfl)]
    simp only [hsplit, List.length_cons, List.length_nil, List.getD, List.get?]
    norm_num
    rw [jsSplit_append version hn1, jsSplit_of_not_mem hv]
    exact ⟨rfl, rfl⟩
  · obtain ⟨a, t, rfl⟩ : ∃ a t, name = a :: t := by
      cases name with
      | nil => exact absurd rfl hne
      | cons a t => exact ⟨a, t, rfl⟩
    have hha : ((a :: t) ++ '@' :: version).head? = some a := by
      rw [List.cons_append]
      rfl
    have hh' : ¬(((a :: t) ++ '@' :: version).head? = some '@') := by
      rw [hha]
      simpa using hh
    unfold formatPackageId parsePackageId
    rw [if_neg hh']
    have hlast : lastIndexOf '@' ((a :: t) ++ '@' :: version) = some (a :: t).length :=
      lastIndexOf_append version hv
    simp only [hlast]
    rw [if_pos (by simp)]
    have htake : ((a :: t) ++ '@' :: version).take (a :: t).length = a :: t :=
      List.take_left (a :: t) ('@' :: version)
    have hdrop : ((a :: t) ++ '@' :: version).drop ((a :: t).length + 1) = version := by
      have hre : (a :: t) ++ '@' :: version = ((a :: t) ++ ['@']) ++ version := by simp
      have hlen : (a :: t).length + 1 = ((a :: t) ++ ['@']).length := by simp
      rw [hre, hlen, List.drop_left]
    rw [htake, hdrop]

/-- Witness for C6 at `@s/p@1.0.0`. -/
theorem C6_parsePackageId_roundtrip_witness :
    parsePackageId
        (formatPackageId ['@', 's', '/', 'p'] ['1', '.', '0', '.', '0']) =
      (some ['@', 's', '/', 'p'], some ['1', '.', '0', '.', '0']) :=
  C6_parsePackageId_roundtrip ['@', 's', '/', 'p'] ['1', '.', '0', '.', '0']
    (by decide) (Or.inl ⟨['s', '/', 'p'], rfl, by decide⟩)

/-- C6 counterexample: for the name `@a@b` and version `1` the code splits at
the second `@` (returning name `@a`, version `b`), so the claimed universal
round-trip with the last-`@` separator rule fails. -/
theorem C6_parsePackageId_not_universal :
    parsePackageId (formatPackageId ['@', 'a', '@', 'b'] ['1']) =
        (some ['@', 'a'], some ['b']) ∧
      parsePackageId (formatPackageId ['@', 'a', '@', 'b'] ['1']) ≠
        (some ['@', 'a', '@', 'b'], some ['1']) := by
  decide

/-! ## Change-feed model (`src/discovery/npm-changes.ts`, `getLatestChanges`) -/

/-- One element of `response.data.results` of the `_changes` feed. -/
structure FeedChange where
  seq : Nat
  id : String
  deleted : Bool
deriving DecidableEq

/-- A `_changes` response body: `results` plus the optional `last_seq`. -/
structure FeedResponse where
  results : List FeedChange
  lastSeq : Option Nat

/-- `PackageInfo` (`src/types.ts`).  An absent `name`/`version` is modelled
as `""` (both are falsy in the JavaScript guards that consume them). -/
structure PackageInfo where
  name : String
  version : String
  publishedAt : Option String
  publisher : Option String
  description : Option String
  repository : Option String
  dependencies : List (String × String)
  devDependencies : List (String × String)

def MAX_PACKAGES_PER_RUN : Nat := 10000

/-- In-memory state during one `getLatestChanges` run: `state.lastSequence`,
`state.discoveredPackages` (a JS `Set`, modelled as its insertion-ordered
element list) and the run-local `packagesToProcess` map and
`newDiscoveredPackages` array. -/
structure LoopState where
  lastSequence : Nat
  discoveredPackages : List String
  packagesToProcess : List (String × PackageInfo)
  newDiscoveredPackages : List String

/-- The `for (const change of response.data.results)` loop of
`getLatestChanges`.  `resolve` stands for the network call
`fetchPackageInfo` (`none` = lookup failed / returned `null`).  The
`continue` branches (deleted entry, design doc, invalid version) skip the
`Math.max` cursor update at the end of the loop body, and the `break` on
reaching `MAX_PACKAGES_PER_RUN` happens before that update as well. -/
def processChanges (resolve : String → Option PackageInfo) :
    List FeedChange → LoopState → LoopState
  | [], st => st
  | change :: rest, st =>
    if change.deleted then
      processChanges resolve rest st
    else if change.id = "" ∨ change.id.startsWith "_design/" then
      processChanges resolve rest st
    else
      match resolve change.id with
      | some packageInfo =>
        if packageInfo.name ≠ "" ∧ packageInfo.version ≠ "" then
          if packageInfo.version = "undefined" ∨ packageInfo.version = "" then
            processChanges resolve rest st
          else
            let fullPackageId := packageInfo.name ++ "@" ++ packageInfo.version
            if st.discoveredPackages.contains fullPackageId then
              processChanges resolve rest
                { st with lastSequence := max st.lastSequence change.seq }
            else
              let st' : LoopState :=
                { st with
                  discoveredPackages := st.discoveredPackages ++ [fullPackageId]
                  packagesToProcess := st.packagesToProcess ++ [(fullPackageId, packageInfo)]
                  newDiscoveredPackages := st.newDiscoveredPackages ++ [fullPackageId] }
              if MAX_PACKAGES_PER_RUN ≤ st'.packagesToProcess.length then
                st'
              else
                processChanges resolve rest
                  { st' with lastSequence := max st'.lastSequence change.seq }
        else
          processChanges resolve rest
            { st with lastSequence := max st.lastSequence change.seq }
      | none =>
        processChanges resolve rest
          { st with lastSequence := max st.lastSequence change.seq }

/-- Lines 187-190 of `getLatestChanges`:
`if (response.data.last_seq) this.state.lastSequence = response.data.last_seq`
(`0` and absence are falsy). -/
def applyLastSeq (lastSeq : Option Nat) (cursor : Nat) : Nat :=
  match lastSeq with
  | some v => if v = 0 then cursor else v
  | none => cursor

/-- The in-memory effect of one `getLatestChanges` run on the loaded state:
the `if (response.data.results && response.data.results.length > 0)` guard
wraps both the loop and the `last_seq` override. -/
def runFeedOnce (resolve : String → Option PackageInfo) (seq0 : Nat)
    (discovered0 : List String) (resp : FeedResponse) : LoopState :=
  if resp.results.isEmpty then
    ⟨seq0, discovered0, [], []⟩
  else
    let st := processChanges resolve resp.results ⟨seq0, discovered0, [], []⟩
    { st with lastSequence := applyLastSeq resp.lastSeq st.lastSequence }

/-- The sequence numbers of exactly those feed entries that complete the loop
body of `processChanges` (i.e. reach the `Math.max` cursor update): entries
that are not deleted, not design documents, not skipped for an invalid
resolved version, and not cut off by the per-run cap. -/
def countedSeqs (resolve : String → Option PackageInfo) :
    List FeedChange → List String → Nat → List Nat
  | [], _, _ => []
  | change :: rest, discovered, count =>
    if change.deleted then
      countedSeqs resolve rest discovered count
    else if change.id = "" ∨ change.id.startsWith "_design/" then
      countedSeqs resolve rest discovered count
    else
      match resolve change.id with
      | some packageInfo =>
        if packageInfo.name ≠ "" ∧ packageInfo.version ≠ "" then
          if packageInfo.version = "undefined" ∨ packageInfo.version = "" then
            countedSeqs resolve rest discovered count
          else
            let fullPackageId := packageInfo.name ++ "@" ++ packageInfo.version
            if discovered.contains fullPackageId then
              change.seq :: countedSeqs resolve rest discovered count
            else if MAX_PACKAGES_PER_RUN ≤ count + 1 then
              []
            else
              change.seq ::
                countedSeqs resolve rest (discovered ++ [fullPackageId]) (count + 1)
        else
          change.seq :: countedSeqs resolve rest discovered count
      | none =>
        change.seq :: countedSeqs resolve rest discovered count

theorem processChanges_lastSequence (resolve : String → Option PackageInfo) :
    ∀ (cs : List FeedChange) (st : LoopState),
      (processChanges resolve cs st).lastSequence =
        (countedSeqs resolve cs st.discoveredPackages st.packagesToProcess.length).foldl
          max st.lastSequence := by
  intro cs
  induction cs with
  | nil => intro st; rfl
  | cons change rest ih =>
    intro st
    by_cases hdel : change.deleted = true
    · simp only [processChanges, countedSeqs, hdel, if_true]
      exact ih st
    · by_cases hid : change.id = "" ∨ change.id.startsWith "_design/"
      · simp only [processChanges, countedSeqs, if_neg hdel, if_pos hid]
        exact ih st
      · cases hres : resolve change.id with
        | none =>
          simp only [processChanges, countedSeqs, if_neg hdel, if_neg hid, hres,
            List.foldl_cons]
          exact ih _
        | some packageInfo =>
          by_cases hguard : packageInfo.name ≠ "" ∧ packageInfo.version ≠ ""
          · by_cases hver : packageInfo.version = "undefined" ∨ packageInfo.version = ""
            · simp only [processChanges, countedSeqs, if_neg hdel, if_neg hid, hres,
                if_pos hguard, if_pos hver]
              exact ih st
            · by_cases hdup :
                  st.discoveredPackages.contains
                    (packageInfo.name ++ "@" ++ packageInfo.version) = true
              · simp only [processChanges, countedSeqs, if_neg hdel, if_neg hid, hres,
                  if_pos hguard, if_neg hver, if_pos hdup, List.foldl_cons]
                exact ih _
              · by_cases hcap : MAX_PACKAGES_PER_RUN ≤ st.packagesToProcess.length + 1
                · simp only [processChanges, countedSeqs, if_neg hdel, if_neg hid, hres,
                    if_pos hguard, if_neg hver, if_neg hdup, List.length_append,
                    List.length_cons, List.length_nil, if_pos hcap, List.foldl_nil]
                · simp only [processChanges, countedSeqs, if_neg hdel, if_neg hid, hres,
                    if_pos hguard, if_neg hver, if_neg hdup, List.length_append,
                    List.length_cons, List.length_nil, if_neg hcap, List.foldl_cons]
                  have := ih
                    { st with
                      lastSequence :=
                        max st.lastSequence change.seq
                      discoveredPackages :=
                        st.discoveredPackages ++
                          [packageInfo.name ++ "@" ++ packageInfo.version]
                      packagesToProcess :=
                        st.packagesToProcess ++
                          [(packageInfo.name ++ "@" ++ packageInfo.version, packageInfo)]
                      newDiscoveredPackages :=
                        st.newDiscoveredPackages ++
                          [packageInfo.name ++ "@" ++ packageInfo.version] }
                  simpa [List.length_append] using this
          · simp only [processChanges, countedSeqs, if_neg hdel, if_neg hid, hres,
              if_neg hguard, List.foldl_cons]
            exact ih _

theorem processChanges_le_lastSequence (resolve : String → Option PackageInfo) :
    ∀ (cs : List FeedChange) (st : LoopState),
      st.lastSequence ≤ (processChanges resolve cs st).lastSequence := by
  intro cs
  induction cs with
  | nil => intro st; exact le_refl _
  | cons change rest ih =>
    intro st
    by_cases hdel : change.deleted = true
    · simp only [processChanges, hdel, if_true]
      exact ih st
    · by_cases hid : change.id = "" ∨ change.id.startsWith "_design/"
      · simp only [processChanges, if_neg hdel, if_pos hid]
        exact ih st
      · cases hres : resolve change.id with
        | none =>
          simp only [processChanges, if_neg hdel, if_neg hid, hres]
          exact le_trans (le_max_left _ _)
            (ih { st with lastSequence := max st.lastSequence change.seq })
        | some packageInfo =>
          by_cases hguard : packageInfo.name ≠ "" ∧ packageInfo.version ≠ ""
          · by_cases hver : packageInfo.version = "undefined" ∨ packageInfo.version = ""
            · simp only [processChanges, if_neg hdel, if_neg hid, hres, if_pos hguard,
                if_pos hver]
              exact ih st
            · by_cases hdup :
                  st.discoveredPackages.contains
                    (packageInfo.name ++ "@" ++ packageInfo.version) = true
              · simp only [processChanges, if_neg hdel, if_neg hid, hres, if_pos hguard,
                  if_neg hver, if_pos hdup]
                exact le_trans (le_max_left _ _)
                  (ih { st with lastSequence := max st.lastSequence change.seq })
              · by_cases hcap : MAX_PACKAGES_PER_RUN ≤ st.packagesToProcess.length + 1
                · simp only [processChanges, if_neg hdel, if_neg hid, hres, if_pos hguard,
                    if_neg hver, if_neg hdup, List.length_append, List.length_cons,
                    List.length_nil, if_pos hcap]
                  exact le_refl _
                · simp only [processChanges, if_neg hdel, if_neg hid, hres, if_pos hguard,
                    if_neg hver, if_neg hdup, List.length_append, List.length_cons,
                    List.length_nil, if_neg hcap]
                  exact le_trans (le_max_left _ _)
                    (ih
                      { st with
                        lastSequence := max st.lastSequence change.seq
                        discoveredPackages :=
                          st.discoveredPackages ++
                            [packageInfo.name ++ "@" ++ packageInfo.version]
                        packagesToProcess :=
                          st.packagesToProcess ++
                            [(packageInfo.name ++ "@" ++ packageInfo.version, packageInfo)]
                        newDiscoveredPackages :=
                          st.newDiscoveredPackages ++
                            [packageInfo.name ++ "@" ++ packageInfo.version] })
          · simp only [processChanges, if_neg hdel, if_neg hid, hres, if_neg hguard]
            exact le_trans (le_max_left _ _)
              (ih { st with lastSequence := max st.lastSequence change.seq })

/-- C3 (amended): the cursor after a `getLatestChanges` run is ≥ the cursor
before it, provided that any nonzero `last_seq` reported alongside a
nonempty `results` list is itself ≥ the prior cursor.  (Without that
proviso the unconditional `last_seq` override can move the cursor
backwards, see the counterexample.) -/
theorem C3_cursor_monotone (resolve : String → Option PackageInfo) (seq0 : Nat)
    (discovered0 : List String) (resp : FeedResponse)
    (h : ∀ v, resp.lastSeq = some v → v ≠ 0 → resp.results ≠ [] → seq0 ≤ v) :
    seq0 ≤ (runFeedOnce resolve seq0 discovered0 resp).lastSequence := by
  unfold runFeedOnce
  by_cases he : resp.results.isEmpty = true
  · simp only [he, if_true]
    exact le_refl _
  · simp only [he, if_false]
    have h1 : seq0 ≤
        (processChanges resolve resp.results ⟨seq0, discovered0, [], []⟩).lastSequence :=
      processChanges_le_lastSequence resolve resp.results ⟨seq0, discovered0, [], []⟩
    have hne : resp.results ≠ [] := by
      intro hc
      exact he (by simp [hc])
    unfold applyLastSeq
    cases hls : resp.lastSeq with
    | none => exact h1
    | some v =>
      by_cases hv : v = 0
      · simpa [hv] using h1
      · simpa [hv] using h v hls hv hne

/-- Witness for C3: an empty feed response leaves the cursor at 7. -/
theorem C3_cursor_monotone_witness :
    7 ≤ (runFeedOnce (fun _ => none) 7 [] ⟨[], none⟩).lastSequence :=
  C3_cursor_monotone (fun _ => none) 7 [] ⟨[], none⟩
    (fun v hv => by simp at hv)

/-- The feed response refuting unconditional cursor monotonicity: a deleted
entry (so the per-entry `Math.max` is skipped) and a `last_seq` of 50
below the prior cursor 100. -/
def c3Resp : FeedResponse := ⟨[⟨5, "x", true⟩], some 50⟩

/-- C3 counterexample: starting from cursor 100, the run ends at cursor 50. -/
theorem C3_cursor_monotone_counterexample :
    (runFeedOnce (fun _ => none) 100 [] c3Resp).lastSequence = 50 ∧
      ¬(100 ≤ (runFeedOnce (fun _ => none) 100 [] c3Resp).lastSequence) := by
  decide

/-- C4 (amended): during `getLatestChanges` the cursor is advanced to
`max(current, entry.seq)` exactly for the entries that complete the loop
body (`countedSeqs`): entries skipped by `continue` (deleted, design doc,
invalid version) and the cap-triggering entry do not advance it, while
resolution failures and already-discovered entries do.  After the loop the
cursor equals the reported `last_seq` only when `results` is nonempty and
`last_seq` is nonzero; otherwise it is the running maximum of the prior
cursor and the counted entries' sequence numbers. -/
theorem C4_cursor_advancement (resolve : String → Option PackageInfo) (seq0 : Nat)
    (discovered0 : List String) (resp : FeedResponse) :
    (processChanges resolve resp.results ⟨seq0, discovered0, [], []⟩).lastSequence =
      (countedSeqs resolve resp.results discovered0 0).foldl max seq0 ∧
    (runFeedOnce resolve seq0 discovered0 resp).lastSequence =
      (match resp.lastSeq with
       | some v =>
         if resp.results ≠ [] ∧ v ≠ 0 then v
         else (countedSeqs resolve resp.results discovered0 0).foldl max seq0
       | none => (countedSeqs resolve resp.results discovered0 0).foldl max seq0) := by
  have hkey :
      (processChanges resolve resp.results ⟨seq0, discovered0, [], []⟩).lastSequence =
        (countedSeqs resolve resp.results discovered0 0).foldl max seq0 :=
    processChanges_lastSequence resolve resp.results ⟨seq0, discovered0, [], []⟩
  refine ⟨hkey, ?_⟩
  unfold runFeedOnce
  by_cases he : resp.results.isEmpty = true
  · have hnil : resp.results = [] := by
      cases hr : resp.results with
      | nil => rfl
      | cons a l => rw [hr] at he; simp at he
    cases hls : resp.lastSeq with
    | none => simp [he, hnil, countedSeqs]
    | some v => simp [he, hnil, countedSeqs]
  · have hne : resp.results ≠ [] := by
      intro hc
      exact he (by simp [hc])
    simp only [he, if_false]
    unfold applyLastSeq
    cases hls : resp.lastSeq with
    | none => exact hkey
    | some v =>
      by_cases hv : v = 0
      · simp [hv, hkey]
      · simp [hv, hne, hkey]

/-- The feed response refuting per-entry cursor advancement: a single
deleted entry with sequence number 5 and no `last_seq`. -/
def c4Resp : FeedResponse := ⟨[⟨5, "x", true⟩], none⟩

/-- C4 counterexample: from cursor 0, the deleted entry's `continue` skips
the `Math.max` update, so the final cursor is 0 and not the claimed running
maximum 5 of all observed sequence numbers. -/
theorem C4_cursor_advancement_counterexample :
    (runFeedOnce (fun _ => none) 0 [] c4Resp).lastSequence = 0 ∧
      (c4Resp.results.map FeedChange.seq).foldl max 0 = 5 ∧
      (runFeedOnce (fun _ => none) 0 [] c4Resp).lastSequence ≠
        (c4Resp.results.map FeedChange.seq).foldl max 0 := by
  decide

/-! ## State-file contents: trim, join, parseInt (JavaScript primitives) -/

/-- Whitespace as `String.prototype.trim` sees it, restricted to the ASCII
characters these state files can contain. -/
def isWs (c : Char) : Bool :=
  c = ' ' ∨ c = '\n' ∨ c = '\t' ∨ c = '\r'

/-- JavaScript `s.trim()`. -/
def trimChars (l : List Char) : List Char :=
  ((l.dropWhile isWs).reverse.dropWhile isWs).reverse

/-- JavaScript `parseInt(s.trim(), 10) || 0`: parse the leading decimal
digits of the trimmed text; no digits means `NaN`, which `|| 0` turns
into 0. -/
def parseIntOr0 (s : List Char) : Nat :=
  ((trimChars s).takeWhile Char.isDigit).foldl (fun acc c => acc * 10 + (c.toNat - 48)) 0

/-- The decimal digit character for `d` (defined for `d < 10`). -/
def digitChar (d : Nat) : Char :=
  Char.ofNat (48 + d % 10)

/-- JavaScript `n.toString()` for a natural number. -/
def natToChars (n : Nat) : List Char :=
  if n = 0 then ['0'] else ((Nat.digits 10 n).map digitChar).reverse

/-- JavaScript `packages.join(sep)` for a one-character separator. -/
def jsJoin (sep : Char) : List (List Char) → List Char
  | [] => []
  | [a] => a
  | a :: b :: rest => a ++ sep :: jsJoin sep (b :: rest)

/-- A well-formed canonical identifier as stored in the state files:
nonempty and free of whitespace (no real `name@version` string contains
a newline, tab, CR or space). -/
def goodId (l : List Char) : Prop :=
  l ≠ [] ∧ ∀ c ∈ l, isWs c = false

instance goodId_decidable (l : List Char) : Decidable (goodId l) := by
  unfold goodId
  infer_instance

theorem dropWhile_isWs_eq_self {l : List Char} (h : ∀ c ∈ l, isWs c = false) :
    l.dropWhile isWs = l := by
  cases l with
  | nil => rfl
  | cons a t =>
    rw [List.dropWhile_cons, if_neg]
    simp [h a (List.mem_cons_self a t)]

theorem trimChars_of_good {l : List Char} (h : ∀ c ∈ l, isWs c = false) :
    trimChars l = l := by
  unfold trimChars
  rw [dropWhile_isWs_eq_self h,
    dropWhile_isWs_eq_self (fun c hc => h c (List.mem_reverse.mp hc)),
    List.reverse_reverse]

theorem trimChars_append_newline (c : Char) (t : List Char)
    (hc : isWs c = false) (d : Char) (r : List Char)
    (hrev : (c :: t).reverse = d :: r) (hd : isWs d = false) :
    trimChars ((c :: t) ++ ['\n']) = c :: t := by
  unfold trimChars
  rw [List.cons_append, List.dropWhile_cons, if_neg (by simp [hc])]
  have h1 : (c :: (t ++ ['\n'])).reverse = '\n' :: (c :: t).reverse := by
    simp
  rw [h1, List.dropWhile_cons, if_pos (by decide), hrev, List.dropWhile_cons,
    if_neg (by simp [hd]), ← hrev, List.reverse_reverse]

theorem isWs_digitChar (d : Nat) : isWs (digitChar d) = false := by
  unfold digitChar
  set e := d % 10 with he
  have h10 : e < 10 := Nat.mod_lt _ (by norm_num)
  interval_cases e <;> decide

theorem isDigit_digitChar (d : Nat) : (digitChar d).isDigit = true := by
  unfold digitChar
  set e := d % 10 with he
  have h10 : e < 10 := Nat.mod_lt _ (by norm_num)
  interval_cases e <;> decide

theorem toNat_digitChar (d : Nat) (h : d < 10) : (digitChar d).toNat - 48 = d := by
  unfold digitChar
  rw [Nat.mod_eq_of_lt h]
  interval_cases d <;> decide

theorem foldl_digits (L : List Nat) :
    ∀ a : Nat, (∀ d ∈ L, d < 10) →
      (L.reverse.map digitChar).foldl (fun acc c => acc * 10 + (c.toNat - 48)) a =
        a * 10 ^ L.length + Nat.ofDigits 10 L := by
  induction L with
  | nil =>
    intro a _
    simp [Nat.ofDigits]
  | cons d L ih =>
    intro a h
    rw [List.reverse_cons, List.map_append, List.foldl_append,
      ih a (fun x hx => h x (List.mem_cons_of_mem d hx))]
    have hd10 : d < 10 := h d (List.mem_cons_self d L)
    simp only [List.map_cons, List.map_nil, List.foldl_cons, List.foldl_nil,
      toNat_digitChar d hd10, Nat.ofDigits_cons, List.length_cons]
    ring

theorem parseIntOr0_natToChars (n : Nat) : parseIntOr0 (natToChars n ++ ['\n']) = n := by
  by_cases h0 : n = 0
  · subst h0
    decide
  · have hD : Nat.digits 10 n ≠ [] := Nat.digits_ne_nil_iff_ne_zero.mpr h0
    have hall : ∀ c ∈ ((Nat.digits 10 n).map digitChar).reverse, isWs c = false := by
      intro c hc
      rw [List.mem_reverse, List.mem_map] at hc
      obtain ⟨d, _, rfl⟩ := hc
      exact isWs_digitChar d
    have halld : ∀ c ∈ ((Nat.digits 10 n).map digitChar).reverse, c.isDigit = true := by
      intro c hc
      rw [List.mem_reverse, List.mem_map] at hc
      obtain ⟨d, _, rfl⟩ := hc
      exact isDigit_digitChar d
    have hMne : ((Nat.digits 10 n).map digitChar).reverse ≠ [] := by
      simp [hD]
    obtain ⟨c, t, hct⟩ := List.exists_cons_of_ne_nil hMne
    obtain ⟨d, r, hdr⟩ :=
      List.exists_cons_of_ne_nil
        (show (c :: t).reverse ≠ [] by simp)
    unfold natToChars
    rw [if_neg h0]
    unfold parseIntOr0
    have hcmem : isWs c = false := hall c (hct ▸ List.mem_cons_self c t)
    have hdmem : isWs d = false := by
      apply hall
      rw [hct]
      have : d ∈ (c :: t).reverse := hdr ▸ List.mem_cons_self d r
      exact List.mem_reverse.mp this
    rw [hct, trimChars_append_newline c t hcmem d r hdr hdmem, ← hct,
      List.takeWhile_eq_self_iff.mpr halld]
    have hmapped : ((Nat.digits 10 n).map digitChar).reverse =
        ((Nat.digits 10 n).reverse).map digitChar := by
      rw [List.map_reverse]
    rw [hmapped,
      foldl_digits (Nat.digits 10 n) 0
        (fun dd hdd => Nat.digits_lt_base (by norm_num) hdd)]
    simp [Nat.ofDigits_digits]

theorem jsJoin_cons_shape (sep : Char) (a : List Char) (ls : List (List Char)) :
    ∃ rest, jsJoin sep (a :: ls) = a ++ rest := by
  cases ls with
  | nil => exact ⟨[], by simp [jsJoin]⟩
  | cons b l => exact ⟨sep :: jsJoin sep (b :: l), rfl⟩

theorem jsJoin_reverse_good :
    ∀ (ls : List (List Char)), (∀ l ∈ ls, goodId l) → ls ≠ [] →
      ∃ d r, (jsJoin '\n' ls).reverse = d :: r ∧ isWs d = false := by
  intro ls
  induction ls with
  | nil => intro _ h; exact absurd rfl h
  | cons a tl ih =>
    intro h _
    cases tl with
    | nil =>
      have hga := h a (List.mem_cons_self a [])
      obtain ⟨d, r, hdr⟩ :=
        List.exists_cons_of_ne_nil (show a.reverse ≠ [] by simp [hga.1])
      refine ⟨d, r, by simpa [jsJoin] using hdr, ?_⟩
      exact hga.2 d (List.mem_reverse.mp (hdr ▸ List.mem_cons_self d r))
    | cons b l =>
      obtain ⟨d, r, hdr, hd⟩ :=
        ih (fun x hx => h x (List.mem_cons_of_mem a hx)) (by simp)
      refine ⟨d, r ++ ['\n'] ++ a.reverse, ?_, hd⟩
      show (jsJoin '\n' (a :: b :: l)).reverse = d :: (r ++ ['\n'] ++ a.reverse)
      have : jsJoin '\n' (a :: b :: l) = a ++ '\n' :: jsJoin '\n' (b :: l) := rfl
      rw [this]
      simp [hdr]

theorem jsSplit_jsJoin :
    ∀ (ls : List (List Char)), (∀ l ∈ ls, '\n' ∉ l) → ls ≠ [] →
      jsSplit '\n' (jsJoin '\n' ls) = ls := by
  intro ls
  induction ls with
  | nil => intro _ h; exact absurd rfl h
  | cons a tl ih =>
    intro h _
    cases tl with
    | nil =>
      show jsSplit '\n' (jsJoin '\n' [a]) = [a]
      have : jsJoin '\n' [a] = a := rfl
      rw [this]
      exact jsSplit_of_not_mem (h a (List.mem_cons_self a []))
    | cons b l =>
      have hstep : jsJoin '\n' (a :: b :: l) = a ++ '\n' :: jsJoin '\n' (b :: l) := rfl
      rw [hstep, jsSplit_append _ (h a (List.mem_cons_self a _)),
        ih (fun x hx => h x (List.mem_cons_of_mem a hx)) (by simp)]

/-! ## Durable discovery state (`src/discovery/npm-changes.ts` persistence) -/

/-- The three discovery-phase state files, contents as character lists
(`none` = the file does not exist, so reading it throws):
`last-sequence.txt`, `discovered-packages.txt`,
`discovered-packages-new.txt`. -/
structure FsState where
  seqFile : Option (List Char)
  mainFile : Option (List Char)
  deltaFile : Option (List Char)
deriving DecidableEq

/-- `NpmChangesFeed.saveLastSequence`: write `sequence.toString() + '\n'`. -/
def saveLastSequence (fs : FsState) (sequence : Nat) : FsState :=
  { fs with seqFile := some (natToChars sequence ++ ['\n']) }

/-- `NpmChangesFeed.appendNewDiscoveredPackages`: when the list is nonempty,
write `packages.join('\n') + '\n'` to the delta file — `fs.writeFile`, so
the previous delta contents are replaced, not appended to. -/
def appendNewDiscoveredPackages (fs : FsState) (packages : List (List Char)) : FsState :=
  if 0 < packages.length then
    { fs with deltaFile := some (jsJoin '\n' packages ++ ['\n']) }
  else
    fs

/-- The parse in `loadDiscoveredPackages` / `loadScanningState`:
`data.trim().split('\n').filter(line => line.trim())`. -/
def parsePackagesFile (data : List Char) : List (List Char) :=
  (jsSplit '\n' (trimChars data)).filter (fun line => !(trimChars line).isEmpty)

/-- `NpmChangesFeed.loadDiscoveredPackages`: a read failure (absent file)
degrades to the empty set. -/
def loadDiscoveredPackages (fs : FsState) : List (List Char) :=
  match fs.mainFile with
  | some data => parsePackagesFile data
  | none => []

/-- `NpmChangesFeed.getCurrentSequence`: the outer `Option` is the HTTP
request (`none` = it threw, the catch returns 0); the inner is the
`last_seq` field (`response.data.last_seq || 0`). -/
def getCurrentSequence (feed : Option (Option Nat)) : Nat :=
  match feed with
  | none => 0
  | some lastSeq =>
    match lastSeq with
    | some v => v
    | none => 0

/-- `NpmChangesFeed.loadLastSequence`: parse the sequence file if it can be
read; otherwise fetch the current sequence, save it, and return it. -/
def loadLastSequence (fs : FsState) (feed : Option (Option Nat)) : Nat × FsState :=
  match fs.seqFile with
  | some data => (parseIntOr0 data, fs)
  | none =>
    let currentSequence := getCurrentSequence feed
    (currentSequence, saveLastSequence fs currentSequence)

/-- One discovery-state commit as the spec's DiscoveryStore contract names
it: exactly the two writes at the end of `getLatestChanges` —
`saveDiscoveryState` (= `saveLastSequence`) then
`appendNewDiscoveredPackages`. -/
def commitDiscovery (fs : FsState) (cursor : Nat)
    (newlyDiscovered : List (List Char)) : FsState :=
  appendNewDiscoveredPackages (saveLastSequence fs cursor) newlyDiscovered

/-- Modelled from the spec: the out-of-band merge of the new-entries delta
file into the durable discovered set.  No TypeScript source under `src/`
performs it (the repository's scheduled workflow folds
`discovered-packages-new.txt` into `discovered-packages.txt` between
runs); spec §4.1 "appends the new identifiers to durable storage" and §6
"new-entries-only delta files supported as an append-friendly alternative
to full rewrites" describe it. -/
def mergeDeltaIntoMain (fs : FsState) : FsState :=
  match fs.deltaFile with
  | none => fs
  | some delta =>
    { fs with
      mainFile :=
        some (jsJoin '\n' (loadDiscoveredPackages fs ++ parsePackagesFile delta) ++ ['\n'])
      deltaFile := none }

theorem parsePackagesFile_jsJoin :
    ∀ (ls : List (List Char)), (∀ l ∈ ls, goodId l) →
      parsePackagesFile (jsJoin '\n' ls ++ ['\n']) = ls := by
  intro ls h
  cases ls with
  | nil => decide
  | cons a tl =>
    have hga := h a (List.mem_cons_self a tl)
    obtain ⟨c, t, hct⟩ := List.exists_cons_of_ne_nil hga.1
    obtain ⟨rest, hrest⟩ := jsJoin_cons_shape '\n' a tl
    have hshape : jsJoin '\n' (a :: tl) = c :: (t ++ rest) := by
      rw [hrest, hct, List.cons_append]
    obtain ⟨d, r, hdr, hd⟩ := jsJoin_reverse_good (a :: tl) h (by simp)
    have hdr' : (c :: (t ++ rest)).reverse = d :: r := by
      rw [← hshape]
      exact hdr
    have hnomem : ∀ l ∈ a :: tl, '\n' ∉ l := by
      intro l hl hc
      have := (h l hl).2 '\n' hc
      simp [isWs] at this
    unfold parsePackagesFile
    rw [hshape, trimChars_append_newline c (t ++ rest)
        (hga.2 c (hct ▸ List.mem_cons_self c t)) d r hdr' hd,
      ← hshape, jsSplit_jsJoin (a :: tl) hnomem (by simp)]
    rw [List.filter_eq_self.mpr]
    intro l hl
    rw [trimChars_of_good (h l hl).2]
    simp [List.isEmpty_iff, (h l hl).1]

theorem load_after_commit_merge (fs : FsState) (cursor : Nat)
    (n : List (List Char)) (hdelta : fs.deltaFile = none)
    (hg : ∀ l ∈ loadDiscoveredPackages fs ++ n, goodId l) :
    loadDiscoveredPackages (mergeDeltaIntoMain (commitDiscovery fs cursor n)) =
        loadDiscoveredPackages fs ++ n ∧
      (mergeDeltaIntoMain (commitDiscovery fs cursor n)).deltaFile = none ∧
      (mergeDeltaIntoMain (commitDiscovery fs cursor n)).seqFile =
        some (natToChars cursor ++ ['\n']) := by
  obtain ⟨sf, mf, df⟩ := fs
  simp only at hdelta
  subst hdelta
  by_cases hn : 0 < n.length
  · have hgn : ∀ l ∈ n, goodId l := fun l hl => hg l (List.mem_append_right _ hl)
    have hcommit : commitDiscovery ⟨sf, mf, none⟩ cursor n =
        ⟨some (natToChars cursor ++ ['\n']), mf, some (jsJoin '\n' n ++ ['\n'])⟩ := by
      unfold commitDiscovery appendNewDiscoveredPackages saveLastSequence
      rw [if_pos hn]
    rw [hcommit]
    have hmerge :
        mergeDeltaIntoMain
            ⟨some (natToChars cursor ++ ['\n']), mf, some (jsJoin '\n' n ++ ['\n'])⟩ =
          ⟨some (natToChars cursor ++ ['\n']),
            some (jsJoin '\n' (loadDiscoveredPackages ⟨sf, mf, none⟩ ++ n) ++ ['\n']),
            none⟩ := by
      show FsState.mk _ _ _ = _
      rw [parsePackagesFile_jsJoin n hgn]
      rfl
    rw [hmerge]
    refine ⟨?_, rfl, rfl⟩
    show parsePackagesFile
        (jsJoin '\n' (loadDiscoveredPackages ⟨sf, mf, none⟩ ++ n) ++ ['\n']) = _
    exact parsePackagesFile_jsJoin _ hg
  · have hn0 : n = [] := by
      cases n with
      | nil => rfl
      | cons x xs => simp at hn
    subst hn0
    have hcommit : commitDiscovery ⟨sf, mf, none⟩ cursor [] =
        ⟨some (natToChars cursor ++ ['\n']), mf, none⟩ := by
      unfold commitDiscovery appendNewDiscoveredPackages saveLastSequence
      rw [if_neg hn]
    rw [hcommit]
    refine ⟨?_, rfl, rfl⟩
    rw [List.append_nil]
    rfl

/-- C5 (with the out-of-band delta merge modelled from the spec): two
commit-then-merge rounds with possibly overlapping id lists make a
subsequent load return the last committed cursor and a discovered set
holding every previously durable identifier plus both commits' ids, and
leave the same durable set as one commit of the concatenated (union)
list. -/
theorem C5_commit_load_idempotent (fs : FsState) (c1 c2 : Nat)
    (n1 n2 : List (List Char)) (feed : Option (Option Nat))
    (hdelta : fs.deltaFile = none)
    (h1 : ∀ l ∈ n1, goodId l) (h2 : ∀ l ∈ n2, goodId l)
    (hmain : ∀ l ∈ loadDiscoveredPackages fs, goodId l) :
    (loadLastSequence
        (mergeDeltaIntoMain
          (commitDiscovery (mergeDeltaIntoMain (commitDiscovery fs c1 n1)) c2 n2))
        feed).1 = c2 ∧
    (∀ pid,
      pid ∈
          loadDiscoveredPackages
            (mergeDeltaIntoMain
              (commitDiscovery (mergeDeltaIntoMain (commitDiscovery fs c1 n1)) c2 n2)) ↔
        (pid ∈ loadDiscoveredPackages fs ∨ pid ∈ n1 ∨ pid ∈ n2)) ∧
    loadDiscoveredPackages
        (mergeDeltaIntoMain
          (commitDiscovery (mergeDeltaIntoMain (commitDiscovery fs c1 n1)) c2 n2)) =
      loadDiscoveredPackages (mergeDeltaIntoMain (commitDiscovery fs c2 (n1 ++ n2))) := by
  have hg1 : ∀ l ∈ loadDiscoveredPackages fs ++ n1, goodId l := by
    intro l hl
    rcases List.mem_append.mp hl with h | h
    · exact hmain l h
    · exact h1 l h
  obtain ⟨hload1, hdelta1, hseq1⟩ := load_after_commit_merge fs c1 n1 hdelta hg1
  have hg2 : ∀ l ∈
      loadDiscoveredPackages (mergeDeltaIntoMain (commitDiscovery fs c1 n1)) ++ n2,
      goodId l := by
    rw [hload1]
    intro l hl
    rcases List.mem_append.mp hl with h | h
    · exact hg1 l h
    · exact h2 l h
  obtain ⟨hload2, hdelta2, hseq2⟩ :=
    load_after_commit_merge (mergeDeltaIntoMain (commitDiscovery fs c1 n1)) c2 n2 hdelta1 hg2
  have hgU : ∀ l ∈ loadDiscoveredPackages fs ++ (n1 ++ n2), goodId l := by
    intro l hl
    rcases List.mem_append.mp hl with h | h
    · exact hmain l h
    · rcases List.mem_append.mp h with h' | h'
      · exact h1 l h'
      · exact h2 l h'
  obtain ⟨hloadU, _, _⟩ := load_after_commit_merge fs c2 (n1 ++ n2) hdelta hgU
  refine ⟨?_, ?_, ?_⟩
  · simp only [loadLastSequence, hseq2]
    exact parseIntOr0_natToChars c2
  · intro pid
    rw [hload2, hload1]
    simp [List.mem_append, or_assoc]
  · rw [hload2, hload1, hloadU, List.append_assoc]

/-- Witness for C5: two overlapping commits (`a@1`, then `a@1` and `b@2`)
from an empty store. -/
theorem C5_commit_load_idempotent_witness :
    (loadLastSequence
        (mergeDeltaIntoMain
          (commitDiscovery
            (mergeDeltaIntoMain (commitDiscovery ⟨none, none, none⟩ 5 [['a', '@', '1']]))
            6 [['a', '@', '1'], ['b', '@', '2']]))
        none).1 = 6 ∧
    (∀ pid,
      pid ∈
          loadDiscoveredPackages
            (mergeDeltaIntoMain
              (commitDiscovery
                (mergeDeltaIntoMain
                  (commitDiscovery ⟨none, none, none⟩ 5 [['a', '@', '1']]))
                6 [['a', '@', '1'], ['b', '@', '2']])) ↔
        (pid ∈ loadDiscoveredPackages (⟨none, none, none⟩ : FsState) ∨
          pid ∈ [['a', '@', '1']] ∨ pid ∈ [['a', '@', '1'], ['b', '@', '2']])) ∧
    loadDiscoveredPackages
        (mergeDeltaIntoMain
          (commitDiscovery
            (mergeDeltaIntoMain (commitDiscovery ⟨none, none, none⟩ 5 [['a', '@', '1']]))
            6 [['a', '@', '1'], ['b', '@', '2']])) =
      loadDiscoveredPackages
        (mergeDeltaIntoMain
          (commitDiscovery ⟨none, none, none⟩ 6
            ([['a', '@', '1']] ++ [['a', '@', '1'], ['b', '@', '2']]))) :=
  C5_commit_load_idempotent ⟨none, none, none⟩ 5 6 [['a', '@', '1']]
    [['a', '@', '1'], ['b', '@', '2']] none rfl (by decide) (by decide) (by decide)

/-- C7 (amended): when no prior state exists, load returns a cursor equal
to the `getCurrentSequence` result — the feed's current high-water mark
whenever that request succeeds — together with an empty discovered set.
The cursor is 0 (not "never 0") exactly when the current-sequence request
fails or reports a zero/absent `last_seq`. -/
theorem C7_cold_start_load (fs : FsState) (feed : Option (Option Nat))
    (hseq : fs.seqFile = none) (hmain : fs.mainFile = none) :
    (loadLastSequence fs feed).1 = getCurrentSequence feed ∧
    (∀ v, feed = some (some v) → (loadLastSequence fs feed).1 = v) ∧
    loadDiscoveredPackages fs = [] := by
  refine ⟨?_, ?_, ?_⟩
  · simp only [loadLastSequence, hseq]
  · intro v hv
    subst hv
    simp only [loadLastSequence, hseq]
    rfl
  · simp only [loadDiscoveredPackages, hmain]

/-- Witness for C7: cold start with a live feed reporting sequence 42. -/
theorem C7_cold_start_load_witness :
    (loadLastSequence ⟨none, none, none⟩ (some (some 42))).1 =
        getCurrentSequence (some (some 42)) ∧
    (∀ v, (some (some 42) : Option (Option Nat)) = some (some v) →
      (loadLastSequence ⟨none, none, none⟩ (some (some 42))).1 = v) ∧
    loadDiscoveredPackages ⟨none, none, none⟩ = [] :=
  C7_cold_start_load ⟨none, none, none⟩ (some (some 42)) rfl rfl

/-- C7 counterexample: with no prior state and a failing current-sequence
request, the loaded cursor is 0 — the claim says it is never 0. -/
theorem C7_cold_start_cursor_zero :
    (loadLastSequence ⟨none, none, none⟩ none).1 = 0 := by
  decide

/-- `NpmChangesFeed.getLatestChanges` with its durable effects.
`curSeqFeed` models the `getCurrentSequence` request used only on a cold
start inside `loadDiscoveryState`; `feedReq` is the `_changes` request
(`none` = it threw, landing in the catch block, which only logs — the
already-loaded state is kept and the still-empty `packages` array is
returned; the two saves sit after the request inside the same `try`). -/
def getLatestChangesRun (fs : FsState) (curSeqFeed : Option (Option Nat))
    (feedReq : Option FeedResponse) (resolve : String → Option PackageInfo) :
    FsState × List PackageInfo :=
  let loaded := loadLastSequence fs curSeqFeed
  let discovered := loadDiscoveredPackages loaded.2
  match feedReq with
  | none => (loaded.2, [])
  | some resp =>
    let st := runFeedOnce resolve loaded.1 (discovered.map fun l => String.mk l) resp
    let fs1 := saveLastSequence loaded.2 st.lastSequence
    let fs2 := appendNewDiscoveredPackages fs1 (st.newDiscoveredPackages.map String.toList)
    (fs2, st.packagesToProcess.map Prod.snd)

/-- C10: if the `_changes` request throws and the sequence file already
exists (so the cold-start write inside `loadLastSequence` is not taken),
`getLatestChanges` returns an empty package list and every state file is
exactly as before the call. -/
theorem C10_feed_failure_no_write (fs : FsState) (curSeqFeed : Option (Option Nat))
    (resolve : String → Option PackageInfo) (s : List Char)
    (h : fs.seqFile = some s) :
    getLatestChangesRun fs curSeqFeed none resolve = (fs, []) := by
  simp only [getLatestChangesRun, loadLastSequence, h]

/-- Witness for C10 at a concrete one-file store. -/
theorem C10_feed_failure_no_write_witness :
    getLatestChangesRun ⟨some ['7'], some ['a'], none⟩ none none (fun _ => none) =
      (⟨some ['7'], some ['a'], none⟩, []) :=
  C10_feed_failure_no_write ⟨some ['7'], some ['a'], none⟩ none (fun _ => none) ['7'] rfl
